import Mathlib

/-!
Verification of the Cyno job-matching core against its specification.

The repository's job matching and deduplication pipeline (record normalizer,
deduplicator, multi-factor scorer, filter-and-rank pipeline) is exercised by
the repository's documentation and test specifications; the Python module
implementing it is not part of the checked-in sources, so those components
are modelled here from the specification's own words (each such definition's
doc comment starts with "Modelled from the spec:"). The React frontend
(frontend/src/App.jsx) is present in the sources and its chat-message and
job-fit functions are embedded directly.

All string utilities are implemented structurally over `String.data`
(lists of characters) so that every definition evaluates inside the kernel.
-/

namespace Cyno

/-- Whitespace test used by the structural string helpers. -/
def wsChar (c : Char) : Bool := c == ' ' || c == '\t' || c == '\n' || c == '\r'

/-- Lower-casing, character by character (structural counterpart of
`toLowerCase` / Python `str.lower`). -/
def strLower (s : String) : String := ⟨s.data.map Char.toLower⟩

/-- Trim leading and trailing whitespace (structural counterpart of
JavaScript `String.prototype.trim`). -/
def strTrim (s : String) : String :=
  ⟨((s.data.dropWhile wsChar).reverse.dropWhile wsChar).reverse⟩

/-- Structural counterpart of JavaScript `String.prototype.startsWith`. -/
def strStartsWith (s pat : String) : Bool := pat.data.isPrefixOf s.data

/-- Does `pat` occur as a contiguous sublist of the character list? -/
def containsAux (pat : List Char) : List Char → Bool
  | [] => pat.isPrefixOf []
  | c :: cs => pat.isPrefixOf (c :: cs) || containsAux pat cs

/-- Structural counterpart of JavaScript `String.prototype.includes` /
Python `in` on strings. -/
def strContains (s pat : String) : Bool := containsAux pat.data s.data

/-- Split a character list at every occurrence of the separator character. -/
def splitOnChar (sep : Char) : List Char → List (List Char)
  | [] => [[]]
  | c :: cs =>
    let r := splitOnChar sep cs
    if c == sep then [] :: r
    else
      match r with
      | [] => [[c]]
      | h :: t => (c :: h) :: t

/-- Drop one trailing slash, if present. -/
def dropTrailingSlash (l : List Char) : List Char :=
  match l.reverse with
  | '/' :: rest => rest.reverse
  | _ => l

/-- Does the character list end with the given string? -/
def endsWithL (l : List Char) (s : String) : Bool := s.data.reverse.isPrefixOf l.reverse

/-- Rejoin query-string fragments with the separator they were split at. -/
def joinQ : List (List Char) → List Char
  | [] => []
  | [x] => x
  | x :: y :: t => x ++ '?' :: joinQ (y :: t)

/-- Lower-cased, whitespace-separated, nonempty words of a string. -/
def splitWords (s : String) : List String :=
  ((splitOnChar ' ' (strLower s).data).filter (fun w => !w.isEmpty)).map (fun w => ⟨w⟩)

/-- Modelled from the spec: proficiency levels of a resume skill
(the spec's `proficiency ∈ {beginner, intermediate, advanced, expert}`). -/
inductive Proficiency
  | beginner
  | intermediate
  | advanced
  | expert
deriving DecidableEq

/-- Modelled from the spec: the job-type enum of the canonical Job entity. -/
inductive JobType
  | full_time
  | part_time
  | internship
  | freelance
  | contract
  | unknown
deriving DecidableEq

/-- Modelled from the spec: the optional structured salary range of a Job
(min, max, currency, period). -/
structure Salary where
  min : Option ℚ
  max : Option ℚ
  currency : String
  period : String
deriving DecidableEq

/-- Modelled from the spec: the canonical Job entity produced by the (missing)
normalizer module. `minExperienceYears` carries the job's stated minimum
experience used by the scorer's experience sub-score. -/
structure Job where
  title : String
  company : String
  location : String
  salary : Option Salary
  jobType : JobType
  postedDate : Option Nat
  source : String
  url : String
  description : String
  minExperienceYears : Option ℚ
deriving DecidableEq

/-- Modelled from the spec: the ResumeProfile entity consumed by the scorer:
skills with proficiency, experience years, desired salary (amount and
currency), preferred locations and target titles. -/
structure ResumeProfile where
  skills : List (String × Proficiency)
  experienceYears : ℚ
  desiredSalary : Option (ℚ × String)
  preferredLocations : List String
  targetTitles : List String
deriving DecidableEq

/-- Modelled from the spec: the recommendation enum of a MatchResult. -/
inductive Recommendation
  | apply_now
  | review
  | skip
deriving DecidableEq

/-- Modelled from the spec: the per-factor sub-scores of a MatchResult
(skills 0-40, experience 0-25, title 0-15, salary 0-10, location 0-10). -/
structure ComponentScores where
  skills : ℚ
  experience : ℚ
  title : ℚ
  salary : ℚ
  location : ℚ
deriving DecidableEq

/-- Modelled from the spec: the MatchResult entity produced per
(Job, ResumeProfile) pair. -/
structure MatchResult where
  job : Job
  score : ℚ
  components : ComponentScores
  missingSkills : List String
  recommendation : Recommendation
  reason : String
deriving DecidableEq

/-- Modelled from the spec: the normalizer's hard failure for a record that
lacks a title or a url-like field. -/
inductive NormalizationError
  | missingRequiredField
deriving DecidableEq

/-- Modelled from the spec: field-name variants mapped to the canonical title. -/
def titleAliases : List String := ["title", "job_title", "position", "name"]

/-- Modelled from the spec: field-name variants mapped to the canonical url. -/
def urlAliases : List String := ["url", "link", "job_url", "apply_url"]

/-- Modelled from the spec: field-name variants mapped to the canonical company. -/
def companyAliases : List String := ["company", "company_name", "employer"]

/-- Modelled from the spec: field-name variants mapped to the canonical location. -/
def locationAliases : List String := ["location", "job_location", "city"]

/-- Modelled from the spec: field-name variants mapped to the salary text
(the spec's `salary_text` vs `compensation`). -/
def salaryAliases : List String := ["salary", "salary_text", "compensation", "pay"]

/-- Modelled from the spec: field-name variants mapped to the description. -/
def descriptionAliases : List String := ["description", "desc", "summary", "details"]

/-- Modelled from the spec: field-name variants mapped to the posted date. -/
def dateAliases : List String := ["posted_date", "date", "posted", "published"]

/-- First value among the alias names present in a raw record (a raw record is
a list of field-name/value pairs, field names varying by source). -/
def lookupField (r : List (String × String)) (aliases : List String) : Option String :=
  aliases.findSome? (fun a => r.lookup a)

/-- Numeric runs of a salary string: digits accumulate, a comma between digits
is skipped, and a `k`/`K` directly after a run multiplies it by 1000.
Arguments: remaining characters, current accumulator, whether a run is open,
runs already found (reversed). -/
def scanNums : List Char → Nat → Bool → List Nat → List Nat
  | [], cur, inNum, acc => ((if inNum then cur :: acc else acc)).reverse
  | c :: cs, cur, inNum, acc =>
    if c.isDigit then scanNums cs (cur * 10 + (c.toNat - 48)) true acc
    else if inNum && c == ',' && (match cs with | d :: _ => d.isDigit | [] => false) then
      scanNums cs cur true acc
    else if inNum && (c == 'k' || c == 'K') then scanNums cs 0 false (cur * 1000 :: acc)
    else if inNum then scanNums cs 0 false (cur :: acc)
    else scanNums cs 0 false acc

/-- Modelled from the spec: the currency read off a salary string by the
tolerant salary parser. -/
def currencyOf (s : String) : String :=
  if strContains s "$" || strContains (strLower s) "usd" then "USD" else ""

/-- Modelled from the spec: the pay period read off a salary string by the
tolerant salary parser. -/
def periodOf (s : String) : String :=
  if strContains (strLower s) "year" || strContains (strLower s) "annum" then "year"
  else if strContains (strLower s) "hour" then "hour"
  else if strContains (strLower s) "month" then "month"
  else ""

/-- Modelled from the spec: the tolerant numeric-range extractor for salary
text (the missing `parse_salary_text` utility). Handles "$50k-70k" and
"50,000 - 70,000 USD/year"; text with no number ("Competitive") yields none. -/
def parseSalaryText (s : String) : Option Salary :=
  match scanNums s.data 0 false [] with
  | [] => none
  | [n] => some { min := none, max := some (n : ℚ), currency := currencyOf s, period := periodOf s }
  | a :: b :: _ =>
    some { min := some ((Nat.min a b : ℕ) : ℚ), max := some ((Nat.max a b : ℕ) : ℚ),
           currency := currencyOf s, period := periodOf s }

/-- Modelled from the spec: keyword classification of the job type on
title+description, case-insensitive, with "intern" taking precedence over the
freelance keywords and full_time the default. -/
def classifyJobType (title desc : String) : JobType :=
  let t := strLower (title ++ " " ++ desc)
  if strContains t "intern" then JobType.internship
  else if strContains t "freelance" || strContains t "contract" || strContains t "project-based" then
    JobType.freelance
  else JobType.full_time

/-- Modelled from the spec: the relative-date resolver (the missing
`resolve_relative_date` utility) with an injected "now" reference, in days. -/
def resolveRelativeDate (o : Option String) (now : Nat) : Option Nat :=
  match o with
  | none => none
  | some s =>
    let t := strLower s
    if t = "just posted" ∨ t = "today" then some now
    else
      match scanNums t.data 0 false [] with
      | n :: _ => if strContains t "day" then some (now - n) else none
      | [] => none

/-- Modelled from the spec: the record normalizer
`normalize(raw_record, source_name) -> Job | NormalizationError`, missing from
the checked-in sources. Absence of a title or of a url-like field is the hard
failure; unparseable salary text degrades to `salary = none`. -/
def normalize (r : List (String × String)) (sourceName : String) (now : Nat) :
    Except NormalizationError Job :=
  match lookupField r titleAliases, lookupField r urlAliases with
  | some t, some u =>
    let desc := (lookupField r descriptionAliases).getD ""
    Except.ok
      { title := t
        company := (lookupField r companyAliases).getD ""
        location := (lookupField r locationAliases).getD ""
        salary := (lookupField r salaryAliases).bind parseSalaryText
        jobType := classifyJobType t desc
        postedDate := resolveRelativeDate (lookupField r dateAliases) now
        source := sourceName
        url := u
        description := desc
        minExperienceYears := none }
  | _, _ => Except.error NormalizationError.missingRequiredField

/-- Modelled from the spec: the deduplication key — lower-cased url, trailing
slash dropped, query string stripped unless the path alone looks generic
(ends in "/jobs" or "/search"). -/
def normalizeUrl (u : String) : String :=
  match splitOnChar '?' (strLower u).data with
  | [] => strLower u
  | [base] => ⟨dropTrailingSlash base⟩
  | base :: q1 :: qrest =>
    let base' := dropTrailingSlash base
    if endsWithL base' "/jobs" || endsWithL base' "/search" then
      ⟨base' ++ '?' :: joinQ (q1 :: qrest)⟩
    else ⟨base'⟩

/-- The normalized-url key a Job is deduplicated on. -/
def dedupKey (j : Job) : String := normalizeUrl j.url

/-- 1 when the job has a (parsed) salary, else 0: the first tie-break
criterion of the deduplicator. -/
def salRank (j : Job) : Nat := if j.salary.isSome then 1 else 0

/-- Description length: the second tie-break criterion of the deduplicator. -/
def descLen (j : Job) : Nat := j.description.length

/-- Modelled from the spec: x strictly beats y in the deduplicator's
tie-break order when x has a salary and y has none, or, salary presence
equal, x's description is strictly longer. Earliest-seen wins all remaining
ties, which the fold below realises by replacing the incumbent only on a
strict beat. -/
def beats (x y : Job) : Bool :=
  decide (salRank y < salRank x) ||
    (decide (salRank x = salRank y) && decide (descLen y < descLen x))

/-- Keep the earlier-seen incumbent unless the challenger strictly beats it. -/
def better (incumbent challenger : Job) : Job :=
  if beats challenger incumbent then challenger else incumbent

/-- The survivor of a first-seen-ordered group of Jobs sharing one key. -/
def bestOf (a : Job) (l : List Job) : Job := l.foldl better a

/-- Modelled from the spec: the deduplicator — one surviving Job per
normalized-url key, first-seen order preserved among survivors, survivor
chosen by the (salary-present, longer-description, earliest-seen) tie-break. -/
def deduplicate : List Job → List Job
  | [] => []
  | j :: rest =>
    bestOf j (rest.filter (fun x => decide (dedupKey x = dedupKey j))) ::
      deduplicate (rest.filter (fun x => decide (¬ dedupKey x = dedupKey j)))
termination_by l => l.length
decreasing_by
  simp_wf
  exact Nat.lt_succ_of_le (List.length_filter_le _ _)

/-- Modelled from the spec: the defensive clamp of the total score to
[0, 100]. -/
def clampScore (q : ℚ) : ℚ := min 100 (max 0 q)

/-- Modelled from the spec: the required skills extracted from
job.description + job.title by exact case-insensitive token match against the
injected controlled skill vocabulary. -/
def requiredSkills (vocab : List String) (job : Job) : List String :=
  vocab.filter (fun v =>
    (splitWords (job.title ++ " " ++ job.description)).any (fun w => decide (w = strLower v)))

/-- Does the profile hold a skill with this (case-insensitive) name? -/
def skillMatchB (p : ResumeProfile) (s : String) : Bool :=
  p.skills.any (fun q => decide (strLower q.1 = strLower s))

/-- Does the profile hold this skill at expert proficiency? -/
def expertMatchB (p : ResumeProfile) (s : String) : Bool :=
  p.skills.any (fun q => decide (strLower q.1 = strLower s) && decide (q.2 = Proficiency.expert))

/-- Modelled from the spec: the skills sub-score (0-40):
40 x matched/required plus one point per matched expert skill, capped at 40;
a job with zero extractable required skills gets the full 40. -/
def skillsSubScore (vocab : List String) (job : Job) (p : ResumeProfile) : ℚ :=
  let req := requiredSkills vocab job
  if req = [] then 40
  else
    let m := req.countP (fun s => skillMatchB p s)
    let e := req.countP (fun s => skillMatchB p s && expertMatchB p s)
    min 40 (40 * (m : ℚ) / (req.length : ℚ) + (e : ℚ))

/-- Modelled from the spec: the experience sub-score (0-25): 25 when the job
states no minimum, full 25 when the profile meets it, otherwise a linear
falloff 25 x (years/required) floored at 0. -/
def experienceSubScore (job : Job) (p : ResumeProfile) : ℚ :=
  match job.minExperienceYears with
  | none => 25
  | some req =>
    if req ≤ p.experienceYears then 25
    else min 25 (max 0 (25 * p.experienceYears / req))

/-- Token-overlap ratio of two strings: |intersection| / |union| of their
case-insensitive word sets. -/
def overlapRatio (a b : String) : ℚ :=
  let wa := (splitWords a).dedup
  let wb := (splitWords b).dedup
  let inter := (wa.filter (fun w => wb.contains w)).length
  let uni := ((wa ++ wb).dedup).length
  (inter : ℚ) / (uni : ℚ)

/-- Best token-overlap ratio of the job title against any target title. -/
def bestTitleRatio (job : Job) (p : ResumeProfile) : ℚ :=
  p.targetTitles.foldl (fun acc t => max acc (overlapRatio job.title t)) 0

/-- Modelled from the spec: the title sub-score (0-15): 15 x best overlap
ratio, and the neutral half-credit 7.5 when target_titles is empty. -/
def titleSubScore (job : Job) (p : ResumeProfile) : ℚ :=
  if p.targetTitles = [] then 15 / 2
  else min 15 (max 0 (15 * bestTitleRatio job p))

/-- The single number a salary range is compared at: the midpoint when both
ends are known, else the known end. -/
def salaryValue (s : Salary) : Option ℚ :=
  match s.min, s.max with
  | some a, some b => some ((a + b) / 2)
  | none, some b => some b
  | some a, none => some a
  | none, none => none

/-- Modelled from the spec: the salary sub-score (0-10): 10 when either side's
salary is absent or the currencies differ (benefit of the doubt), full 10 when
the job meets the desired salary, otherwise a linear falloff reaching 0 at
50 percent of the desired amount. -/
def salarySubScore (job : Job) (p : ResumeProfile) : ℚ :=
  match job.salary, p.desiredSalary with
  | some s, some dc =>
    if s.currency = dc.2 then
      match salaryValue s with
      | some v => if dc.1 ≤ v then 10 else min 10 (max 0 (20 * v / dc.1 - 10))
      | none => 10
    else 10
  | _, _ => 10

/-- Modelled from the spec: the location sub-score (0-10): 10 for a Remote job
or a preferred-location substring match (case-insensitive), 5 when the profile
states no preference, 0 otherwise. -/
def locationSubScore (job : Job) (p : ResumeProfile) : ℚ :=
  if decide (strLower job.location = "remote")
      || p.preferredLocations.any (fun l => strContains (strLower job.location) (strLower l)) then
    10
  else if p.preferredLocations = [] then 5
  else 0

/-- Modelled from the spec: the fixed recommendation thresholds — apply_now at
75 and above, review from 50 below 75, skip below 50. -/
def recommendationFor (total : ℚ) : Recommendation :=
  if 75 ≤ total then Recommendation.apply_now
  else if 50 ≤ total then Recommendation.review
  else Recommendation.skip

/-- Insert a named factor into a list kept sorted by ascending sub-score. -/
def insertFac (x : String × ℚ) : List (String × ℚ) → List (String × ℚ)
  | [] => [x]
  | y :: ys => if decide (x.2 ≤ y.2) then x :: y :: ys else y :: insertFac x ys

/-- Insertion sort of named factors by ascending sub-score. -/
def sortFacs : List (String × ℚ) → List (String × ℚ)
  | [] => []
  | x :: xs => insertFac x (sortFacs xs)

/-- Modelled from the spec: the deterministic reason string, enumerating the
two lowest-scoring factors by name (no randomness, no LLM call). -/
def reasonFor (cs : ComponentScores) : String :=
  let facs := sortFacs
    [("skills", cs.skills), ("experience", cs.experience), ("title", cs.title),
     ("salary", cs.salary), ("location", cs.location)]
  "Weakest factors: " ++ String.intercalate ", " ((facs.take 2).map (fun f => f.1))

/-- Modelled from the spec: the multi-factor scorer
`score(job, profile) -> MatchResult` with the fixed weights
Skills 40 / Experience 25 / Title 15 / Salary 10 / Location 10, total clamped
to [0, 100], and the fixed recommendation thresholds. -/
def score (vocab : List String) (job : Job) (p : ResumeProfile) : MatchResult :=
  let cs : ComponentScores :=
    { skills := skillsSubScore vocab job p
      experience := experienceSubScore job p
      title := titleSubScore job p
      salary := salarySubScore job p
      location := locationSubScore job p }
  let total := clampScore (cs.skills + cs.experience + cs.title + cs.salary + cs.location)
  { job := job
    score := total
    components := cs
    missingSkills := (requiredSkills vocab job).filter (fun s => !skillMatchB p s)
    recommendation := recommendationFor total
    reason := reasonFor cs }

/-- Modelled from the spec: the filter configuration struct of the
filter-and-rank pipeline (permissive location mode, strict job type,
minimum salary with benefit of the doubt, limit defaulting to 20). -/
structure Filters where
  location : Option String
  jobType : Option JobType
  minSalary : Option ℚ
  limit : Option Nat
deriving DecidableEq

/-- The effective result limit: the configured one, defaulting to 20. -/
def effectiveLimit (f : Filters) : Nat := f.limit.getD 20

/-- Modelled from the spec: the permissive location filter — exclude only a
job whose location text carries an explicit exclusion marker ("... only")
that does not cover the wanted location. -/
def locationPasses (want : Option String) (j : Job) : Bool :=
  match want with
  | none => true
  | some w =>
    !(strContains (strLower j.location) "only" && !strContains (strLower j.location) (strLower w))

/-- Modelled from the spec: the strict job-type filter (exact match when
present). -/
def jobTypePasses (want : Option JobType) (j : Job) : Bool :=
  match want with
  | none => true
  | some t => decide (j.jobType = t)

/-- Modelled from the spec: the minimum-salary filter — a job with known
salary below the minimum is dropped, a job with unknown salary is kept. -/
def minSalaryPasses (want : Option ℚ) (j : Job) : Bool :=
  match want, j.salary with
  | none, _ => true
  | some _, none => true
  | some m, some s =>
    match salaryValue s with
    | none => true
    | some v => decide (m ≤ v)

/-- A job satisfies all active filters. -/
def passesFilters (f : Filters) (j : Job) : Bool :=
  locationPasses f.location j && jobTypePasses f.jobType j && minSalaryPasses f.minSalary j

/-- Ranking order of the pipeline: descending score, ties broken by more
recent posted date, then source name, for full determinism. -/
def rankLE (a b : MatchResult) : Bool :=
  decide (b.score < a.score) ||
    (decide (a.score = b.score) &&
      (decide ((b.job.postedDate).getD 0 < (a.job.postedDate).getD 0) ||
        (decide ((a.job.postedDate).getD 0 = (b.job.postedDate).getD 0) &&
          decide (a.job.source ≤ b.job.source))))

/-- Insert one result into a list kept sorted by the ranking order. -/
def insertRanked (r : MatchResult) : List MatchResult → List MatchResult
  | [] => [r]
  | x :: xs => if rankLE r x then r :: x :: xs else x :: insertRanked r xs

/-- Stable insertion sort by the ranking order. -/
def rankSort : List MatchResult → List MatchResult
  | [] => []
  | x :: xs => insertRanked x (rankSort xs)

/-- Modelled from the spec: the filter-and-rank pipeline
`filter_and_rank(jobs, profile, filters)`: every job is scored, results are
ranked, and the pipeline yields both the full scored set and the
filtered/limited set. -/
def filterAndRank (vocab : List String) (jobs : List Job) (p : ResumeProfile) (f : Filters) :
    List MatchResult × List MatchResult :=
  let ranked := rankSort (jobs.map (fun j => score vocab j p))
  (ranked, (ranked.filter (fun r => passesFilters f r.job)).take (effectiveLimit f))

/-- Message kind in the frontend chat ('user' / 'ai' in App.jsx). -/
inductive MsgType
  | user
  | ai
deriving DecidableEq

/-- One entry of the App.jsx messages state: id, type and content (content is
optional because handleCommand may return null, which sendMessage appends
as-is). -/
structure ChatMessage where
  id : Nat
  type : MsgType
  content : Option String
deriving DecidableEq

/-- Outcome of the POST to the /chat endpoint in sendMessage: a response with
an optional `response` field, a non-OK HTTP response, or a thrown network
error. -/
inductive FetchOutcome
  | ok (response : Option String)
  | httpError
  | networkError
deriving DecidableEq

/-- The demo reply of App.jsx getDemoResponse (lines 725-775): four keyword
branches over the lower-cased query, then a fixed default. -/
def getDemoResponse (query : String) : String :=
  let q := strLower query
  if strContains q "resume" || strContains q "cv" then
    "📄 I'd love to analyze your resume! \n\nYou can either:\n• Use `/resume [paste your resume]`\n• Or just paste your resume text directly\n\nI'll identify your strengths, suggest improvements, and help you stand out."
  else if strContains q "job" || strContains q "find" || strContains q "search" then
    "🔍 Let me help you find opportunities!\n\nUse: `/jobs [title] [location]`\nExample: `/jobs Python Developer Remote`\n\nOr tell me more about what you're looking for and I'll guide you."
  else if strContains q "salary" || strContains q "pay" || strContains q "worth" then
    "💰 Great question about compensation!\n\nUse: `/salary [title] [location] [level]`\nExample: `/salary ML Engineer Remote Senior`\n\nI'll give you market data and negotiation insights."
  else if strContains q "interview" then
    "🎯 Let's prepare you for success!\n\nUse: `/interview [company] [role]`\nExample: `/interview Google Software Engineer`\n\nI'll provide company-specific prep and practice questions."
  else
    "Thanks for reaching out! Here's how I can help:\n\n• `/help` - See all commands\n• `/resume` - Analyze your resume\n• `/jobs` - Search for opportunities\n• `/salary` - Get compensation data\n• `/interview` - Prepare for interviews\n• `/cover` - Generate cover letters\n\nOr just tell me what you need—I'm here to help with your career journey!"

/-- The effect of App.jsx sendMessage (lines 186-236) on the messages list.
The input is trimmed; an empty input changes nothing. A command input
(leading "/") appends the user message and handleCommand's reply, which is
injected here as `commandResponse` (handleCommand's own network effects and
the /clear state reset are outside this embedding). A chat input appends the
user message and then: on an OK response the `response` field (or the fixed
fallback when it is absent or empty, JavaScript `||`), and on a non-OK
response or a thrown fetch error the deterministic demo reply — the catch
block swallows the error. Message ids come from Date.now(), injected as
`nowId`. -/
def sendMessage (messages : List ChatMessage) (nowId : Nat) (input : String)
    (commandResponse : Option String) (outcome : FetchOutcome) : List ChatMessage :=
  let trimmedInput := strTrim input
  if trimmedInput = "" then messages
  else
    let withUser := messages ++ [⟨nowId, MsgType.user, some trimmedInput⟩]
    if strStartsWith trimmedInput "/" then
      withUser ++ [⟨nowId + 1, MsgType.ai, commandResponse⟩]
    else
      match outcome with
      | FetchOutcome.ok resp =>
        let content :=
          match resp with
          | some r => if r = "" then "I processed your request." else r
          | none => "I processed your request."
        withUser ++ [⟨nowId + 1, MsgType.ai, some content⟩]
      | FetchOutcome.httpError =>
        withUser ++ [⟨nowId + 1, MsgType.ai, some (getDemoResponse trimmedInput)⟩]
      | FetchOutcome.networkError =>
        withUser ++ [⟨nowId + 1, MsgType.ai, some (getDemoResponse trimmedInput)⟩]

/-- The text of the App.jsx scoreJobFit report (lines 696-722) before the
match-score figure. -/
def fitHead : String := "📊 **Job Fit Analysis**\n\n## "

/-- The text of the App.jsx scoreJobFit report after the match-score figure. -/
def fitTail : String := "\n\n### ✅ Strong Alignment\n• Technical skills (Python, JavaScript)\n• Experience level matches requirement\n• Industry background relevant\n\n### ⚠️ Areas to Address\n• Missing: [Specific skill from JD]\n• Consider highlighting relevant projects\n• May need to emphasize leadership experience\n\n### 💡 Positioning Strategy\n1. Lead with your strongest matching skills\n2. Address gaps proactively in cover letter\n3. Prepare examples demonstrating transferable skills\n\n### Recommended Actions\n• `/cover` - Generate tailored cover letter\n• `/interview` - Prepare for this role\n• `/resume` - Optimize your resume\n\n*This is a preliminary analysis. Full scoring requires Cloud Brain connection.*"

/-- App.jsx scoreJobFit (lines 696-722): returns one fixed report string,
ignoring the pasted job description. The string is transcribed in three
parts, split around the "Match Score: 78%" figure. -/
def scoreJobFit (jobDescription : String) : String :=
  fitHead ++ "Match Score: 78%" ++ fitTail

/-- A sample job posting used to instantiate hypothesised theorems at
concrete inputs. -/
def sampleJobA : Job :=
  { title := "Python Developer"
    company := "Acme"
    location := "Remote"
    salary := none
    jobType := JobType.full_time
    postedDate := none
    source := "boardA"
    url := "https://x.com/job/1?ref=abc"
    description := "python docker"
    minExperienceYears := none }

/-- A second sample job sharing sampleJobA's normalized url, with a longer
description. -/
def sampleJobB : Job :=
  { title := "Python Developer"
    company := "Acme"
    location := "Remote"
    salary := none
    jobType := JobType.full_time
    postedDate := none
    source := "boardB"
    url := "https://x.com/job/1?ref=xyz"
    description := "python docker kubernetes required"
    minExperienceYears := none }

/-- A sample resume profile. -/
def sampleProfile0 : ResumeProfile :=
  { skills := [("Python", Proficiency.advanced)]
    experienceYears := 5
    desiredSalary := none
    preferredLocations := []
    targetTitles := ["Python Developer"] }

/-- sampleProfile0 with a superset of skills. -/
def sampleProfile1 : ResumeProfile :=
  { skills := [("Python", Proficiency.advanced), ("Docker", Proficiency.expert)]
    experienceYears := 5
    desiredSalary := none
    preferredLocations := []
    targetTitles := ["Python Developer"] }

end Cyno

namespace Cyno

/-- C10: the frontend's /fit score is a constant: scoreJobFit returns the
same report text, containing the fixed "Match Score: 78%", for any two
job-description inputs. -/
theorem scoreJobFit_constant (d1 d2 : String) :
    scoreJobFit d1 = scoreJobFit d2 ∧
    ∃ pre post, scoreJobFit d1 = pre ++ "Match Score: 78%" ++ post :=
  ⟨rfl, fitHead, fitTail, rfl⟩

/-- C9: for a non-command, nonempty chat message, when the POST to /chat
returns a non-OK response or throws, sendMessage still appends an AI reply,
namely the deterministic demo response getDemoResponse(message), and returns
the extended message list instead of propagating the error. -/
theorem sendMessage_network_fallback (messages : List ChatMessage) (nowId : Nat)
    (input : String) (commandResponse : Option String)
    (h1 : ¬ strTrim input = "") (h2 : ¬ strStartsWith (strTrim input) "/" = true) :
    sendMessage messages nowId input commandResponse FetchOutcome.httpError =
      messages ++ [⟨nowId, MsgType.user, some (strTrim input)⟩,
        ⟨nowId + 1, MsgType.ai, some (getDemoResponse (strTrim input))⟩] ∧
    sendMessage messages nowId input commandResponse FetchOutcome.networkError =
      messages ++ [⟨nowId, MsgType.user, some (strTrim input)⟩,
        ⟨nowId + 1, MsgType.ai, some (getDemoResponse (strTrim input))⟩] := by
  constructor <;> simp [sendMessage, h1, h2]

/-- Witness for C9: the fallback equations at the concrete message "hello". -/
theorem sendMessage_network_fallback_witness :
    sendMessage [] 0 "hello" none FetchOutcome.httpError =
      [] ++ [⟨0, MsgType.user, some (strTrim "hello")⟩,
        ⟨0 + 1, MsgType.ai, some (getDemoResponse (strTrim "hello"))⟩] ∧
    sendMessage [] 0 "hello" none FetchOutcome.networkError =
      [] ++ [⟨0, MsgType.user, some (strTrim "hello")⟩,
        ⟨0 + 1, MsgType.ai, some (getDemoResponse (strTrim "hello"))⟩] :=
  sendMessage_network_fallback [] 0 "hello" none (by decide) (by decide)

/-- C1: for every job and profile the total score lies in [0, 100] and equals
the sum of the five sub-scores clamped to [0, 100]. -/
theorem score_total_bounds (vocab : List String) (job : Job) (p : ResumeProfile) :
    0 ≤ (score vocab job p).score ∧ (score vocab job p).score ≤ 100 ∧
    (score vocab job p).score =
      min 100 (max 0 ((score vocab job p).components.skills +
        (score vocab job p).components.experience + (score vocab job p).components.title +
        (score vocab job p).components.salary + (score vocab job p).components.location)) := by
  refine ⟨?_, ?_, rfl⟩
  · show (0 : ℚ) ≤ min 100 (max 0 _)
    exact le_min (by norm_num) (le_max_left _ _)
  · show min (100 : ℚ) (max 0 _) ≤ 100
    exact min_le_left _ _

/-- C2: the recommendation is apply_now exactly when the total score is at
least 75, skip exactly when it is below 50, and review exactly in between,
exhaustively over the score range. -/
theorem score_recommendation_thresholds (vocab : List String) (job : Job) (p : ResumeProfile) :
    ((score vocab job p).recommendation = Recommendation.apply_now ↔
      75 ≤ (score vocab job p).score) ∧
    ((score vocab job p).recommendation = Recommendation.skip ↔
      (score vocab job p).score < 50) ∧
    ((score vocab job p).recommendation = Recommendation.review ↔
      50 ≤ (score vocab job p).score ∧ (score vocab job p).score < 75) := by
  have h : (score vocab job p).recommendation = recommendationFor ((score vocab job p).score) := rfl
  rw [h]
  generalize (score vocab job p).score = t
  unfold recommendationFor
  split_ifs with h1 h2
  · exact ⟨Iff.intro (fun _ => h1) (fun _ => rfl),
      Iff.intro (fun hx => hx.elim) (fun hx => absurd h1 (by linarith)),
      Iff.intro (fun hx => hx.elim) (fun hx => absurd h1 (by linarith [hx.2]))⟩
  · exact ⟨Iff.intro (fun hx => hx.elim) (fun hx => absurd hx h1),
      Iff.intro (fun hx => hx.elim) (fun hx => absurd h2 (by linarith)),
      Iff.intro (fun _ => ⟨h2, not_le.mp h1⟩) (fun _ => rfl)⟩
  · exact ⟨Iff.intro (fun hx => hx.elim) (fun hx => absurd hx h1),
      Iff.intro (fun _ => not_le.mp h2) (fun _ => rfl),
      Iff.intro (fun hx => hx.elim) (fun hx => absurd hx.1 h2)⟩

/-- C5: normalize fails, with MissingRequiredField, exactly when the record
lacks a title or a url-like field; in every other case it returns a Job, and
salary text that does not parse yields a Job whose salary is none. -/
theorem normalize_error_iff_missing (r : List (String × String)) (src : String) (now : Nat) :
    (normalize r src now = Except.error NormalizationError.missingRequiredField ↔
      lookupField r titleAliases = none ∨ lookupField r urlAliases = none) ∧
    (lookupField r titleAliases ≠ none → lookupField r urlAliases ≠ none →
      ∃ j, normalize r src now = Except.ok j) ∧
    (∀ j st, normalize r src now = Except.ok j →
      lookupField r salaryAliases = some st → parseSalaryText st = none → j.salary = none) := by
  rcases h1 : lookupField r titleAliases with _ | t <;>
    rcases h2 : lookupField r urlAliases with _ | u <;>
      simp [normalize, h1, h2]
  intro j st hj hst hparse
  subst hj
  show (lookupField r salaryAliases).bind parseSalaryText = none
  rw [hst]
  simpa using hparse

/-- C6: the skills sub-score is 40 x matched/required plus one point per
matched expert skill, capped at 40, and exactly 40 when the job has zero
extractable required skills. -/
theorem skills_subscore_formula (vocab : List String) (job : Job) (p : ResumeProfile) :
    (score vocab job p).components.skills =
      if requiredSkills vocab job = [] then 40
      else
        min 40 (40 * (((requiredSkills vocab job).filter (fun s => skillMatchB p s)).length : ℚ) /
            ((requiredSkills vocab job).length : ℚ) +
          (((requiredSkills vocab job).filter
              (fun s => skillMatchB p s && expertMatchB p s)).length : ℚ)) := by
  have h : (score vocab job p).components.skills = skillsSubScore vocab job p := rfl
  rw [h]
  unfold skillsSubScore
  by_cases hreq : requiredSkills vocab job = [] <;>
    simp [hreq, List.countP_eq_length_filter]

/-- C7: for a fixed job (and vocabulary), a profile whose skill set contains
the other profile's skills never scores lower on the skills sub-score. -/
theorem skills_subscore_monotone (vocab : List String) (job : Job) (P Q : ResumeProfile)
    (hsub : ∀ sp ∈ P.skills, sp ∈ Q.skills) :
    (score vocab job P).components.skills ≤ (score vocab job Q).components.skills := by
  have hP : (score vocab job P).components.skills = skillsSubScore vocab job P := rfl
  have hQ : (score vocab job Q).components.skills = skillsSubScore vocab job Q := rfl
  rw [hP, hQ]
  unfold skillsSubScore
  by_cases hreq : requiredSkills vocab job = []
  · simp [hreq]
  · simp only [hreq, if_false]
    have hmatch : ∀ s, skillMatchB P s = true → skillMatchB Q s = true := by
      intro s hs
      rw [skillMatchB, List.any_eq_true] at hs ⊢
      obtain ⟨q, hq, hpred⟩ := hs
      exact ⟨q, hsub q hq, hpred⟩
    have hexpert : ∀ s, (skillMatchB P s && expertMatchB P s) = true →
        (skillMatchB Q s && expertMatchB Q s) = true := by
      intro s hs
      rw [Bool.and_eq_true] at hs ⊢
      refine ⟨hmatch s hs.1, ?_⟩
      have he := hs.2
      rw [expertMatchB, List.any_eq_true] at he ⊢
      obtain ⟨q, hq, hpred⟩ := he
      exact ⟨q, hsub q hq, hpred⟩
    have hm : (requiredSkills vocab job).countP (fun s => skillMatchB P s) ≤
        (requiredSkills vocab job).countP (fun s => skillMatchB Q s) :=
      List.countP_mono_left (fun x _ hx => hmatch x hx)
    have he : (requiredSkills vocab job).countP (fun s => skillMatchB P s && expertMatchB P s) ≤
        (requiredSkills vocab job).countP (fun s => skillMatchB Q s && expertMatchB Q s) :=
      List.countP_mono_left (fun x _ hx => hexpert x hx)
    have hn : (0 : ℚ) < ((requiredSkills vocab job).length : ℚ) := by
      exact_mod_cast List.length_pos.mpr hreq
    apply min_le_min le_rfl
    have hm' : ((requiredSkills vocab job).countP (fun s => skillMatchB P s) : ℚ) ≤
        ((requiredSkills vocab job).countP (fun s => skillMatchB Q s) : ℚ) := by
      exact_mod_cast hm
    have he' : ((requiredSkills vocab job).countP (fun s => skillMatchB P s && expertMatchB P s) : ℚ) ≤
        ((requiredSkills vocab job).countP (fun s => skillMatchB Q s && expertMatchB Q s) : ℚ) := by
      exact_mod_cast he
    gcongr

/-- Witness for C7: the skills sub-score at a concrete job does not drop when
the profile gains a skill. -/
theorem skills_subscore_monotone_witness :
    (score ["python", "docker"] sampleJobA sampleProfile0).components.skills ≤
      (score ["python", "docker"] sampleJobA sampleProfile1).components.skills :=
  skills_subscore_monotone ["python", "docker"] sampleJobA sampleProfile0 sampleProfile1
    (by decide)

/-- The tie-break relation never beats itself. -/
theorem beats_irrefl (a : Job) : beats a a = false := by
  simp [beats]

/-- Chain lemma: if b does not beat m but beats a, then m beats a. -/
theorem beats_chainB {a b m : Job} (h1 : beats b m = false) (h2 : beats b a = true) :
    beats m a = true := by
  simp only [beats, Bool.or_eq_true, Bool.and_eq_true, decide_eq_true_eq,
    Bool.or_eq_false_iff, Bool.and_eq_false_iff, decide_eq_false_iff_not] at h1 h2 ⊢
  omega

/-- Chain lemma: if b does not beat m but beats a, then a does not beat m. -/
theorem beats_chainA {a b m : Job} (h1 : beats b m = false) (h2 : beats b a = true) :
    beats a m = false := by
  simp only [beats, Bool.or_eq_true, Bool.and_eq_true, decide_eq_true_eq,
    Bool.or_eq_false_iff, Bool.and_eq_false_iff, decide_eq_false_iff_not] at h1 h2 ⊢
  omega

/-- Chain lemma: if b does not beat a and m beats a, then b does not beat m. -/
theorem beats_chainC {a b m : Job} (h1 : beats b a = false) (h2 : beats m a = true) :
    beats b m = false := by
  simp only [beats, Bool.or_eq_true, Bool.and_eq_true, decide_eq_true_eq,
    Bool.or_eq_false_iff, Bool.and_eq_false_iff, decide_eq_false_iff_not] at h1 h2 ⊢
  omega

/-- Chain lemma: if b does not beat a and m beats a, then m beats b. -/
theorem beats_chainD {a b m : Job} (h1 : beats b a = false) (h2 : beats m a = true) :
    beats m b = true := by
  simp only [beats, Bool.or_eq_true, Bool.and_eq_true, decide_eq_true_eq,
    Bool.or_eq_false_iff, Bool.and_eq_false_iff, decide_eq_false_iff_not] at h1 h2 ⊢
  omega

/-- The fold `bestOf` selects, from a first-seen-ordered group, an element
that nothing in the group strictly beats and that strictly beats everything
seen before it: the earliest maximum of the tie-break order. -/
theorem bestOf_spec (l : List Job) : ∀ a : Job,
    ∃ pre post, a :: l = pre ++ bestOf a l :: post ∧
      (∀ y ∈ a :: l, beats y (bestOf a l) = false) ∧
      (∀ y ∈ pre, beats (bestOf a l) y = true) := by
  induction l with
  | nil =>
    intro a
    refine ⟨[], [], rfl, ?_, by simp⟩
    intro y hy
    have hya : y = a := by simpa using hy
    subst hya
    exact beats_irrefl y
  | cons b t ih =>
    intro a
    have hstep : bestOf a (b :: t) = bestOf (better a b) t := rfl
    by_cases hba : beats b a = true
    · have hbet : better a b = b := by simp [better, hba]
      obtain ⟨pre, post, hsplit, hnob, hpre⟩ := ih b
      rw [hstep, hbet]
      refine ⟨a :: pre, post, ?_, ?_, ?_⟩
      · rw [List.cons_append, ← hsplit]
      · intro y hy
        rcases List.mem_cons.mp hy with rfl | hy'
        · exact beats_chainA (hnob b (List.mem_cons_self b t)) hba
        · exact hnob y hy'
      · intro y hy
        rcases List.mem_cons.mp hy with rfl | hy'
        · exact beats_chainB (hnob b (List.mem_cons_self b t)) hba
        · exact hpre y hy'
    · have hba' : beats b a = false := by
        revert hba
        cases beats b a <;> simp
      have hbet : better a b = a := by simp [better, hba']
      rw [hstep, hbet]
      obtain ⟨pre, post, hsplit, hnob, hpre⟩ := ih a
      rcases pre with _ | ⟨p, pre2⟩
      · have hma : bestOf a t = a := by
          have := hsplit
          simp only [List.nil_append] at this
          exact (List.cons.inj this).1.symm
        have hpost : post = t := by
          have := hsplit
          simp only [List.nil_append] at this
          exact ((List.cons.inj this).2).symm
        refine ⟨[], b :: t, ?_, ?_, by simp⟩
        · rw [List.nil_append, hma]
        · intro y hy
          rcases List.mem_cons.mp hy with rfl | hy'
          · exact hnob y (List.mem_cons_self y t)
          · rcases List.mem_cons.mp hy' with rfl | hy''
            · rw [hma]; exact hba'
            · exact hnob y (List.mem_cons_of_mem a hy'')
      · have hp : p = a := (List.cons.inj hsplit).1.symm
        subst hp
        have ht : t = pre2 ++ bestOf p t :: post := (List.cons.inj hsplit).2
        have hma : beats (bestOf p t) p = true := hpre p (List.mem_cons_self p pre2)
        refine ⟨p :: b :: pre2, post, ?_, ?_, ?_⟩
        · rw [List.cons_append, List.cons_append, ← ht]
        · intro y hy
          rcases List.mem_cons.mp hy with rfl | hy'
          · exact hnob y (List.mem_cons_self y t)
          · rcases List.mem_cons.mp hy' with rfl | hy''
            · exact beats_chainC hba' hma
            · exact hnob y (List.mem_cons_of_mem p hy'')
        · intro y hy
          rcases List.mem_cons.mp hy with rfl | hy'
          · exact hma
          · rcases List.mem_cons.mp hy' with rfl | hy''
            · exact beats_chainD hba' hma
            · exact hpre y (List.mem_cons_of_mem p hy'')

/-- The survivor of a group is a member of the group. -/
theorem mem_bestOf (a : Job) (l : List Job) : bestOf a l ∈ a :: l := by
  obtain ⟨pre, post, hsplit, _, _⟩ := bestOf_spec l a
  rw [hsplit]
  exact List.mem_append.mpr (Or.inr (List.mem_cons_self _ _))

/-- The survivor of a one-key group carries that key. -/
theorem dedupKey_bestOf (a : Job) (l : List Job)
    (h : ∀ x ∈ l, dedupKey x = dedupKey a) : dedupKey (bestOf a l) = dedupKey a := by
  rcases List.mem_cons.mp (mem_bestOf a l) with he | hmem
  · rw [he]
  · exact h _ hmem

/-- Every output Job of the deduplicator is one of the input Jobs. -/
theorem mem_of_mem_deduplicate : ∀ (l : List Job) (x : Job), x ∈ deduplicate l → x ∈ l := by
  intro l
  induction l using deduplicate.induct with
  | case1 =>
    intro x hx
    simp [deduplicate] at hx
  | case2 j rest ih =>
    intro x hx
    rw [deduplicate] at hx
    rcases List.mem_cons.mp hx with rfl | hx'
    · rcases List.mem_cons.mp
        (mem_bestOf j (rest.filter (fun x => decide (dedupKey x = dedupKey j)))) with he | hmem
      · rw [he]
        exact List.mem_cons_self _ _
      · exact List.mem_cons_of_mem j (List.mem_of_mem_filter hmem)
    · exact List.mem_cons_of_mem j (List.mem_of_mem_filter (ih x hx'))

/-- Output keys of the deduplicator are pairwise distinct. -/
theorem deduplicate_keys_pairwise (l : List Job) :
    (deduplicate l).Pairwise (fun a b => dedupKey a ≠ dedupKey b) := by
  induction l using deduplicate.induct with
  | case1 => simp [deduplicate]
  | case2 j rest ih =>
    rw [deduplicate]
    refine List.Pairwise.cons ?_ ih
    intro b hb
    have hbkey : ¬ dedupKey b = dedupKey j := by
      simpa using (List.mem_filter.mp (mem_of_mem_deduplicate _ b hb)).2
    have hkey : dedupKey (bestOf j (rest.filter (fun x => decide (dedupKey x = dedupKey j)))) =
        dedupKey j :=
      dedupKey_bestOf j _ (fun x hx => by simpa using (List.mem_filter.mp hx).2)
    rw [hkey]
    exact fun he => hbkey he.symm

/-- A list whose keys are pairwise distinct passes the deduplicator
unchanged. -/
theorem deduplicate_eq_self (l : List Job)
    (h : l.Pairwise (fun a b => dedupKey a ≠ dedupKey b)) : deduplicate l = l := by
  induction l using deduplicate.induct with
  | case1 => simp [deduplicate]
  | case2 j rest ih =>
    rw [deduplicate]
    obtain ⟨hj, hrest⟩ := List.pairwise_cons.mp h
    have hsame : rest.filter (fun x => decide (dedupKey x = dedupKey j)) = [] :=
      List.filter_eq_nil_iff.mpr (fun a ha => by
        simp only [decide_eq_true_eq]
        exact fun he => hj a ha he.symm)
    have hdiff : rest.filter (fun x => decide (¬ dedupKey x = dedupKey j)) = rest :=
      List.filter_eq_self.mpr (fun a ha => by
        simp only [decide_eq_true_eq]
        exact fun he => hj a ha he.symm)
    rw [hdiff] at ih
    rw [hsame, hdiff, ih hrest]
    rfl

/-- C4: the deduplicator is idempotent. -/
theorem deduplicate_idempotent (jobs : List Job) :
    deduplicate (deduplicate jobs) = deduplicate jobs :=
  deduplicate_eq_self _ (deduplicate_keys_pairwise jobs)

/-- For a nonempty key group, the deduplicator keeps exactly one Job of the
group: one that nothing in the group strictly beats and that strictly beats
every group member seen before it. -/
theorem deduplicate_group : ∀ (jobs : List Job) (k : String),
    jobs.filter (fun x => decide (dedupKey x = k)) ≠ [] →
    ∃ m pre post,
      (deduplicate jobs).filter (fun x => decide (dedupKey x = k)) = [m] ∧
      jobs.filter (fun x => decide (dedupKey x = k)) = pre ++ m :: post ∧
      (∀ y ∈ jobs.filter (fun x => decide (dedupKey x = k)), beats y m = false) ∧
      (∀ y ∈ pre, beats m y = true) := by
  intro jobs
  induction jobs using deduplicate.induct with
  | case1 =>
    intro k h
    simp at h
  | case2 j rest ih =>
    intro k h
    by_cases hk : dedupKey j = k
    · subst hk
      have hgroup : (j :: rest).filter (fun x => decide (dedupKey x = dedupKey j)) =
          j :: rest.filter (fun x => decide (dedupKey x = dedupKey j)) := by
        simp [List.filter_cons]
      obtain ⟨pre, post, hsplit, hnob, hpre⟩ :=
        bestOf_spec (rest.filter (fun x => decide (dedupKey x = dedupKey j))) j
      refine ⟨bestOf j (rest.filter (fun x => decide (dedupKey x = dedupKey j))), pre, post,
        ?_, ?_, ?_, hpre⟩
      · rw [deduplicate]
        have hkey : dedupKey (bestOf j (rest.filter (fun x => decide (dedupKey x = dedupKey j)))) =
            dedupKey j :=
          dedupKey_bestOf j _ (fun x hx => by simpa using (List.mem_filter.mp hx).2)
        rw [List.filter_cons]
        simp only [hkey, decide_True, if_true]
        have hrest0 : (deduplicate (rest.filter (fun x => decide (¬ dedupKey x = dedupKey j)))).filter
            (fun x => decide (dedupKey x = dedupKey j)) = [] := by
          refine List.filter_eq_nil_iff.mpr ?_
          intro a ha
          simpa using (List.mem_filter.mp (mem_of_mem_deduplicate _ a ha)).2
        rw [hrest0]
      · rw [hgroup]
        exact hsplit
      · rw [hgroup]
        exact hnob
    · have hgroup : (j :: rest).filter (fun x => decide (dedupKey x = k)) =
          rest.filter (fun x => decide (dedupKey x = k)) := by
        simp [List.filter_cons, hk]
      have hcomm : (rest.filter (fun x => decide (¬ dedupKey x = dedupKey j))).filter
          (fun x => decide (dedupKey x = k)) = rest.filter (fun x => decide (dedupKey x = k)) := by
        rw [List.filter_filter]
        apply List.filter_congr
        intro x _
        by_cases hxk : dedupKey x = k
        · have hnj : ¬ dedupKey x = dedupKey j := by
            rw [hxk]
            exact fun he => hk he.symm
          rw [decide_eq_true hxk, decide_eq_true hnj]
          rfl
        · rw [decide_eq_false hxk, Bool.false_and]
      have h' : (rest.filter (fun x => decide (¬ dedupKey x = dedupKey j))).filter
          (fun x => decide (dedupKey x = k)) ≠ [] := by
        rw [hcomm]
        rw [hgroup] at h
        exact h
      obtain ⟨m, pre, post, hone, hsplit, hnob, hpre⟩ := ih k h'
      refine ⟨m, pre, post, ?_, ?_, ?_, hpre⟩
      · rw [deduplicate]
        have hkey : dedupKey (bestOf j (rest.filter (fun x => decide (dedupKey x = dedupKey j)))) =
            dedupKey j :=
          dedupKey_bestOf j _ (fun x hx => by simpa using (List.mem_filter.mp hx).2)
        rw [List.filter_cons]
        have hcond : (decide (dedupKey (bestOf j (rest.filter
            (fun x => decide (dedupKey x = dedupKey j)))) = k)) = false := by
          simp [hkey, hk]
        rw [hcond]
        simp only [Bool.false_eq_true, if_false]
        exact hone
      · rw [hgroup, ← hcomm]
        exact hsplit
      · rw [hgroup, ← hcomm]
        exact hnob

/-- C3: whenever two input Jobs share a normalized-url key, the deduplicator
keeps exactly one Job with that key — a group member that no group member
strictly beats (non-null salary first, then longer description) and that
strictly beats every group member seen earlier, so the earliest-seen maximum
of the strict tie-break order. -/
theorem deduplicate_pair_tiebreak (jobs : List Job) (k : String)
    (h : 2 ≤ (jobs.filter (fun x => decide (dedupKey x = k))).length) :
    ∃ m pre post,
      (deduplicate jobs).filter (fun x => decide (dedupKey x = k)) = [m] ∧
      jobs.filter (fun x => decide (dedupKey x = k)) = pre ++ m :: post ∧
      (∀ y ∈ jobs.filter (fun x => decide (dedupKey x = k)), beats y m = false) ∧
      (∀ y ∈ pre, beats m y = true) :=
  deduplicate_group jobs k (by
    intro he
    rw [he] at h
    simp at h)

/-- Witness for C3: two records sharing the normalized url
"https://x.com/job/1" (the spec's own aggregator-redirect scenario). -/
theorem deduplicate_pair_tiebreak_witness :
    ∃ m pre post,
      (deduplicate [sampleJobA, sampleJobB]).filter
        (fun x => decide (dedupKey x = "https://x.com/job/1")) = [m] ∧
      [sampleJobA, sampleJobB].filter (fun x => decide (dedupKey x = "https://x.com/job/1")) =
        pre ++ m :: post ∧
      (∀ y ∈ [sampleJobA, sampleJobB].filter
        (fun x => decide (dedupKey x = "https://x.com/job/1")), beats y m = false) ∧
      (∀ y ∈ pre, beats m y = true) :=
  deduplicate_pair_tiebreak [sampleJobA, sampleJobB] "https://x.com/job/1" (by decide)

/-- C8: the filtered output of filter_and_rank holds at most the configured
limit (default 20) of results, and every returned result's job satisfies all
active filters. -/
theorem filterAndRank_safety (vocab : List String) (jobs : List Job) (p : ResumeProfile)
    (f : Filters) :
    (filterAndRank vocab jobs p f).2.length ≤ effectiveLimit f ∧
    (filterAndRank vocab jobs p f).2.all (fun r => passesFilters f r.job) = true := by
  constructor
  · exact List.length_take_le _ _
  · rw [List.all_eq_true]
    intro r hr
    exact (List.mem_filter.mp (List.mem_of_mem_take hr)).2

end Cyno

